import Mathlib

/-
  Verification development for the chatlib IRC client
  (github.com/gregseb/chatlib: irc/irc.go third revision, chatlib core).

  Shallow embedding conventions:
  * Go strings are Lean `String`s; parsing works on `String.data : List Char`.
  * The three anchored regular expressions (`linePattern`, `pingPattern`,
    `errPattern`) are embedded as executable functional parsers with the
    same leftmost/greedy semantics (the patterns are anchored `^...$` and
    their `\S+`/`.*` pieces admit a unique decomposition, so a functional
    parser is exact).
  * Channels are FIFO queues; the bounded `rawMsgs` channel of pollConn /
    ReceiveMessage is modelled as a small-step producer/consumer system.
  * `conn.Write` is modelled by a function `w : String → Option String`
    returning `some e` when the write fails with error `e`.
  * Wall-clock sleeps are modelled as explicit trace events.
-/

namespace Chatlib

/-- The chatlib Message value (src/unnamed/part_001, type Message). -/
structure Msg where
  text : String := ""
  command : String := ""
  sender : String := ""
  receiver : String := ""
  raw : String := ""
deriving DecidableEq

/-- Go regexp whitespace class `\s` = `[\t\n\f\r ]`; `notWs c` is `\S`. -/
def notWs (c : Char) : Bool :=
  !(c == ' ' || c == '\t' || c == '\n' || c == '\r' || c == Char.ofNat 12)

/-- Embedding of the regex tail `(.*)\r\n$`: succeeds iff the input is
`t ++ "\r\n"` with `t` free of newlines, returning `t`. -/
def textPart (cs : List Char) : Option (List Char) :=
  if 2 ≤ cs.length ∧ cs.drop (cs.length - 2) = ['\r', '\n'] ∧ '\n' ∉ cs.take (cs.length - 2) then
    some (cs.take (cs.length - 2))
  else none

/-- Embedding of the optional colon `:?` (greedy) before the text group. -/
def stripColon (cs : List Char) : List Char :=
  match cs with
  | c :: r => if c = ':' then r else c :: r
  | [] => []

/-- Embedding of `(?P<x>\S+) ` inside the anchored line pattern: a nonempty
maximal run of non-whitespace characters followed by a literal space. -/
def splitTok (cs : List Char) : Option (List Char × List Char) :=
  let t := cs.takeWhile notWs
  match cs.dropWhile notWs with
  | ' ' :: r => if t.isEmpty then none else some (t, r)
  | _ => none

/-- Embedding of `linePattern` from irc/irc.go:
`^:(?P<sender>\S+) (?P<command>\S+) (?P<recipient>\S+) :?(.*)\r\n$`. -/
def parseAddressedL (cs : List Char) :
    Option (List Char × List Char × List Char × List Char) :=
  match cs with
  | [] => none
  | c0 :: rest =>
    if c0 = ':' then
      (splitTok rest).bind fun p1 =>
      (splitTok p1.2).bind fun p2 =>
      (splitTok p2.2).bind fun p3 =>
      (textPart (stripColon p3.2)).map fun t => (p1.1, p2.1, p3.1, t)
    else none

/-- Embedding of `pingPattern` from irc/irc.go: `^PING :(?P<arg>.*)\r\n$`. -/
def parsePingL (cs : List Char) : Option (List Char) :=
  match cs with
  | 'P' :: 'I' :: 'N' :: 'G' :: ' ' :: ':' :: rest => textPart rest
  | _ => none

/-- Embedding of `errPattern` from irc/irc.go: `^ERROR :(?P<msg>.*)\r\n$`. -/
def parseErrL (cs : List Char) : Option (List Char) :=
  match cs with
  | 'E' :: 'R' :: 'R' :: 'O' :: 'R' :: ' ' :: ':' :: rest => textPart rest
  | _ => none

/-- String-level addressed-line parser (submatch groups 1-4). -/
def parseAddressedS (s : String) : Option (String × String × String × String) :=
  (parseAddressedL s.data).map fun q =>
    (String.mk q.1, String.mk q.2.1, String.mk q.2.2.1, String.mk q.2.2.2)

/-- String-level keep-alive parser (submatch group 1). -/
def parsePingS (s : String) : Option String := (parsePingL s.data).map String.mk

/-- String-level fatal-error parser (submatch group 1). -/
def parseErrS (s : String) : Option String := (parseErrL s.data).map String.mk

/-- `strings.Join(parts, " ")` as used by SendMessage. -/
def joinSp : List String → String
  | [] => ""
  | [s] => s
  | s :: rest => s ++ " " ++ joinSp rest

/-- The parts SendMessage assembles (irc/irc.go lines 908-915): the command,
then the receiver when nonempty, then a colon-prefixed text when nonempty. -/
def sendParts (m : Msg) : List String :=
  [m.command] ++ (if m.receiver = "" then [] else [m.receiver])
    ++ (if m.text = "" then [] else [":" ++ m.text])

/-- The `str` variable of SendMessage: the joined wire line without the
trailing newline. -/
def sendStr (m : Msg) : String := joinSp (sendParts m)

/-- The bytes SendMessage writes to the transport: `str + "\n"`. -/
def sendWire (m : Msg) : String := sendStr m ++ "\n"

-- quick sanity checks against the constants of irc/irc_test.go
example : sendWire { command := "NICK" ++ " " ++ "freyabot" } = "NICK freyabot\n" := by decide
example : sendWire { command := "USER freyabot 0 *", text := "FreyaBot" }
    = "USER freyabot 0 * :FreyaBot\n" := by decide
example : parsePingS "PING :irc.test.foo\r\n" = some "irc.test.foo" := by decide
example : parseAddressedS ":irc.test.foo NOTICE * :*** Checking Ident\r\n"
    = some ("irc.test.foo", "NOTICE", "*", "*** Checking Ident") := by decide
example : parseAddressedS ":a b c d e\r\n" = some ("a", "b", "c", "d e") := by decide
example : parseAddressedS ":a b c\r\n" = none := by decide
example : parseAddressedS "garbage\r\n" = none := by decide
example : parseErrS "ERROR :bye\r\n" = some "bye" := by decide

/-- Errors ReceiveMessage can return (irc/irc.go lines 957-963): the pong
send error, the protocol-fatal `ERROR` line, or a malformed line (the error
message carries the offending raw text). -/
inductive RecvErr where
  | send (e : String)
  | fatal (msg : String)
  | malformed (raw : String)
deriving DecidableEq

/-- The observable outcome of one ReceiveMessage call: the returned message
(if non-nil), the returned error, the transport writes it performed, and
whether it touched the liveness marker `lastMsgTime`. -/
structure RecvResult where
  msg : Option Msg
  err : Option RecvErr
  writes : List String
  setsLast : Bool
deriving DecidableEq

/-- The message pong sends (irc/irc.go lines 1115-1124). -/
def pongMsg (arg : String) : Msg := { command := "PONG", text := arg }

/-- Embedding of ReceiveMessage (irc/irc.go lines 937-967) on one dequeued
line. `w` models `conn.Write`: `w bytes = some e` means the write fails
with error `e`. The source first tries `lnRe` (addressed line: fills the
four fields and sets `lastMsgTime`), then `pingRe` (returns the PING event
together with pong's error), then `errRe` (fatal), else a malformed-line
error; `MatchString` followed by `FindStringSubmatch` on the same compiled
regex is one parse here. -/
def receiveMessageModel (w : String → Option String) (line : String) : RecvResult :=
  match parseAddressedS line with
  | some (s, c, r, t) =>
      { msg := some { text := t, command := c, sender := s, receiver := r, raw := line },
        err := none, writes := [], setsLast := true }
  | none =>
    match parsePingS line with
    | some arg =>
        let pw := sendWire (pongMsg arg)
        { msg := some { command := "PING", text := arg, raw := line },
          err := (w pw).map RecvErr.send, writes := [pw], setsLast := false }
    | none =>
      match parseErrS line with
      | some m =>
          { msg := none, err := some (RecvErr.fatal m), writes := [], setsLast := false }
      | none =>
          { msg := none, err := some (RecvErr.malformed line), writes := [], setsLast := false }

/-- Embedding of the chatlib receiveLoop (src/unnamed/part_001 lines
140-148): it calls ReceiveMessage for each line, logs errors without
breaking the loop, and forwards every returned message pointer (nil
included) to the dispatcher channel. -/
def receiveLoopModel (w : String → Option String) (lines : List String) : List (Option Msg) :=
  lines.map fun l => (receiveMessageModel w l).msg

/-- DefaultNick (irc/irc.go line 732). -/
def defaultNick : String := "freyabot"

/-- The nickname-declaration message of login (irc/irc.go lines 1070-1074). -/
def nickMsg (nick : String) : Msg := { command := "NICK" ++ " " ++ nick }

/-- The `realname` computed by login (irc/irc.go lines 1075-1078). -/
def realname (nick : String) : String :=
  if nick = defaultNick then "FreyaBot" else "FreyaBot" ++ " (" ++ nick ++ ")"

/-- The user-registration message of login (irc/irc.go lines 1079-1082). -/
def userMsg (nick : String) : Msg :=
  { command := "USER " ++ nick ++ " 0 *", text := realname nick }

/-- Embedding of login (irc/irc.go lines 1069-1086): send the NICK message;
on error return it; otherwise send the USER message and return its error.
The result is the list of wire lines whose write was attempted, in order,
paired with the returned error. -/
def loginModel (nick : String) (w : String → Option String) : List String × Option String :=
  let l1 := sendWire (nickMsg nick)
  match w l1 with
  | some e => ([l1], some e)
  | none =>
    let l2 := sendWire (userMsg nick)
    match w l2 with
    | some e => ([l1, l2], some e)
    | none => ([l1, l2], none)

/-- Start's distinguishable failure modes: connection-setup failure versus
the liveness timeout `chatlib.ErrTimeout` (src/errors.go). -/
inductive StartErr where
  | connectFail
  | timeout
deriving DecidableEq

/-- Observable steps of Start's supervisor goroutine, in order: the settle
(login-delay) sleep and each transport write. -/
inductive Ev where
  | sleepLogin
  | write (line : String)
deriving DecidableEq

/-- Liveness as Start observes it (irc/irc.go lines 979-991): `lastMsgTime`
becomes nonzero exactly when ReceiveMessage consumes a line the addressed
pattern accepts, so with the consumer draining inside the dial-timeout
window the wait succeeds iff some line received in the window is an
addressed line. `lines` are the lines the peer sent within the window. -/
def livenessSatisfied (lines : List String) : Bool :=
  lines.any fun l => (parseAddressedS l).isSome

/-- Embedding of Start (irc/irc.go lines 969-1006). Returns the event trace
of the supervisor goroutine and Start's returned error. Faithful to the
source's login-failure slip: after the liveness wait breaks out of the
polling loop the shared `err` variable is still nil, so the guard
`if e := a.login(c); err != nil` at line 995 never fires — login's error
`e` is dropped and Start returns nil no matter what login returned. -/
def startTrace (connectOk : Bool) (lines : List String) (nick : String)
    (w : String → Option String) : List Ev × Option StartErr :=
  if !connectOk then ([], some StartErr.connectFail)
  else if !(livenessSatisfied lines) then ([], some StartErr.timeout)
  else
    let lr := loginModel nick w
    (Ev.sleepLogin :: lr.1.map Ev.write, none)

/-- The always-succeeding transport write. -/
def wOk : String → Option String := fun _ => none

example : receiveMessageModel wOk "PING :irc.test.foo\r\n" =
    { msg := some { command := "PING", text := "irc.test.foo", raw := "PING :irc.test.foo\r\n" },
      err := none, writes := ["PONG :irc.test.foo\n"], setsLast := false } := by decide
example : receiveMessageModel wOk "PING :\r\n" =
    { msg := some { command := "PING", text := "", raw := "PING :\r\n" },
      err := none, writes := ["PONG\n"], setsLast := false } := by decide
example : startTrace true [] "freyabot" wOk = ([], some StartErr.timeout) := by decide
example : startTrace true [":a b c :d\r\n"] "freyabot" wOk =
    ([Ev.sleepLogin, Ev.write "NICK freyabot\n", Ev.write "USER freyabot 0 * :FreyaBot\n"],
      none) := by decide

/-- State of the framer/consumer pair (irc/irc.go lines 926-935, 1051-1063,
937-941): `pending` are the lines the transport still holds (arrival
order), `queue` holds the contents of the bounded `rawMsgs` channel
(front = oldest), `out` are the raw lines ReceiveMessage has dequeued, in
consumption order. -/
structure FramerState where
  pending : List String
  queue : List String
  out : List String
deriving DecidableEq

/-- One interleaved step of pollConn/readMessage (enqueue: blocks — i.e. is
not enabled — while the channel holds `cap` items, and never discards) or
of ReceiveMessage's dequeue. -/
inductive FrStep (cap : Nat) : FramerState → FramerState → Prop
  | read (l : String) (rest q o : List String) :
      q.length < cap → FrStep cap ⟨l :: rest, q, o⟩ ⟨rest, q ++ [l], o⟩
  | recv (p : List String) (l : String) (rest o : List String) :
      FrStep cap ⟨p, l :: rest, o⟩ ⟨p, rest, o ++ [l]⟩

/-- States reachable from the initial state where the peer has sent `lines`
and nothing has been read or consumed yet. -/
inductive FrReach (lines : List String) (cap : Nat) : FramerState → Prop
  | init : FrReach lines cap ⟨lines, [], []⟩
  | step {s t : FramerState} : FrReach lines cap s → FrStep cap s t → FrReach lines cap t

/-- A registered action as the dispatcher sees it (src/unnamed/part_001,
type Action): the command filter, the compiled pattern's MatchString, and
the handler (`some e` = handler returned error `e`). -/
structure BAction where
  command : String
  matchText : String → Bool
  fn : Msg → Option String

/-- Embedding of the inner loop of actionLoop (src/unnamed/part_001 lines
129-135) starting at registration index `i`: every action whose command
filter equals the event's command and whose pattern matches the event's
text is invoked; a handler error is logged and the loop continues. The
trace records `(index, handler result)` for each invocation, in order. -/
def dispatchFrom : Nat → List BAction → Msg → List (Nat × Option String)
  | _, [], _ => []
  | i, a :: rest, m =>
    if a.command == m.command && a.matchText m.text then
      (i, a.fn m) :: dispatchFrom (i + 1) rest m
    else
      dispatchFrom (i + 1) rest m

/-- Embedding of one actionLoop iteration (src/unnamed/part_001 lines
125-135): a nil message is skipped, otherwise the action list is scanned
from index 0 in registration order. -/
def dispatchMsg (actions : List BAction) (msg : Option Msg) : List (Nat × Option String) :=
  match msg with
  | none => []
  | some m => dispatchFrom 0 actions m

/-- FindStringSubmatch for the pattern `!join (.*)` (registered in
irc/irc.go New): leftmost occurrence of the literal `!join ` followed by
the greedy newline-free group; result is `[whole, group1]`, `none` when the
pattern does not match (Go returns a nil slice). -/
def joinGroups : List Char → Option (List String)
  | [] => none
  | c :: rest =>
    if ("!join ".data).isPrefixOf (c :: rest) then
      let g1 := ((c :: rest).drop 6).takeWhile fun ch => ch != '\n'
      some [String.mk ("!join ".data ++ g1), String.mk g1]
    else joinGroups rest

/-- The alternation-and-option part of `!(part|leave)( (.*))?` tried at one
position: `!part` first, then `!leave`; the optional group matches greedily
iff a space follows. -/
def leaveWord (cs : List Char) : Option (List Char × List Char) :=
  if ("!part".data).isPrefixOf cs then some ("part".data, cs.drop 5)
  else if ("!leave".data).isPrefixOf cs then some ("leave".data, cs.drop 6)
  else none

/-- One-position match attempt for `!(part|leave)( (.*))?`; result is
`[whole, group1, group2, group3]` (unmatched groups are the empty string,
as Go's FindStringSubmatch reports them). -/
def leaveAt (cs : List Char) : Option (List String) :=
  match leaveWord cs with
  | none => none
  | some (word, rest) =>
    match rest with
    | ' ' :: r2 =>
      let g3 := r2.takeWhile fun ch => ch != '\n'
      some [String.mk ('!' :: word ++ ' ' :: g3), String.mk word,
        String.mk (' ' :: g3), String.mk g3]
    | _ => some [String.mk ('!' :: word), String.mk word, "", ""]

/-- FindStringSubmatch for `!(part|leave)( (.*))?`: leftmost position wins. -/
def leaveGroups : List Char → Option (List String)
  | [] => none
  | c :: rest =>
    match leaveAt (c :: rest) with
    | some g => some g
    | none => leaveGroups rest

/-- MatchString for `!join (.*)`. -/
def matchJoin (text : String) : Bool := (joinGroups text.data).isSome

/-- MatchString for `!(part|leave)( (.*))?`. -/
def matchLeave (text : String) : Bool := (leaveGroups text.data).isSome

/-- Embedding of actionJoinChannel (irc/irc.go lines 1134-1139): it indexes
`re.FindStringSubmatch(msg.Text)[1]` and sends a JOIN line. `none` models a
panic (nil-slice or out-of-bounds indexing); `some wire` is the join line
handed to SendMessage. -/
def actionJoinChannelM (text : String) : Option String :=
  match joinGroups text.data with
  | none => none
  | some parts =>
    match parts.get? 1 with
    | none => none
    | some ch => some (sendWire { command := "JOIN " ++ ch })

/-- Embedding of actionLeaveChannel (irc/irc.go lines 1141-1152): it indexes
`parts[3]`, falls back to the message's receiver when that group is empty,
and sends a PART line. `none` models a panic. -/
def actionLeaveChannelM (receiver text : String) : Option String :=
  match leaveGroups text.data with
  | none => none
  | some parts =>
    match parts.get? 3 with
    | none => none
    | some g3 =>
      some (sendWire { command := "PART " ++ (if g3 = "" then receiver else g3) })

example : actionJoinChannelM "!join #test" = some (sendWire { command := "JOIN " ++ "#test" }) := by
  decide
example : actionLeaveChannelM "#chan" "!part" = some (sendWire { command := "PART " ++ "#chan" }) := by
  decide
example : actionLeaveChannelM "#chan" "!leave #other" =
    some (sendWire { command := "PART " ++ "#other" }) := by decide
example : matchLeave "!part " = true := by decide
example : actionLeaveChannelM "#chan" "!part " =
    some (sendWire { command := "PART " ++ "#chan" }) := by decide

/-! ### Helper lemmas -/

theorem data_mk (s : String) : String.mk s.data = s := rfl

theorem textPart_append (t : List Char) (h : '\n' ∉ t) :
    textPart (t ++ ['\r', '\n']) = some t := by
  have hlen : (t ++ ['\r', '\n']).length = t.length + 2 := by simp
  have hsub : (t ++ ['\r', '\n']).length - 2 = t.length := by omega
  have hdrop : (t ++ ['\r', '\n']).drop t.length = ['\r', '\n'] := List.drop_left _ _
  have htake : (t ++ ['\r', '\n']).take t.length = t := List.take_left _ _
  unfold textPart
  rw [if_pos]
  · rw [hsub, htake]
  · refine ⟨by omega, ?_, ?_⟩
    · rw [hsub, hdrop]
    · rw [hsub, htake]; exact h

theorem takeWhile_token (tok : List Char) (rest : List Char)
    (h : ∀ x ∈ tok, notWs x = true) :
    (tok ++ ' ' :: rest).takeWhile notWs = tok ∧
      (tok ++ ' ' :: rest).dropWhile notWs = ' ' :: rest := by
  induction tok with
  | nil => simp [List.takeWhile_cons, List.dropWhile_cons, notWs]
  | cons a as ih =>
    have ha : notWs a = true := h a (by simp)
    have ih' := ih fun x hx => h x (by simp [hx])
    simp [List.takeWhile_cons, List.dropWhile_cons, ha, ih'.1, ih'.2]

theorem splitTok_token (tok : List Char) (rest : List Char)
    (hne : tok ≠ []) (h : ∀ x ∈ tok, notWs x = true) :
    splitTok (tok ++ ' ' :: rest) = some (tok, rest) := by
  have ht := takeWhile_token tok rest h
  unfold splitTok
  rw [ht.2]
  simp only [ht.1]
  rw [if_neg (by simpa [List.isEmpty_iff] using hne)]

theorem stripColon_no_colon (t : List Char) (h : t.head? ≠ some ':') :
    stripColon (t ++ ['\r', '\n']) = t ++ ['\r', '\n'] := by
  cases t with
  | nil => simp [stripColon]
  | cons a as =>
    have : a ≠ ':' := by simpa using h
    simp [stripColon, this]

theorem parseAddressedL_build (s c r t : List Char) (colPart : List Char)
    (hs : s ≠ []) (hsw : ∀ x ∈ s, notWs x = true)
    (hc : c ≠ []) (hcw : ∀ x ∈ c, notWs x = true)
    (hr : r ≠ []) (hrw : ∀ x ∈ r, notWs x = true)
    (ht : '\n' ∉ t)
    (hcol : colPart = [':'] ∨ (colPart = [] ∧ t.head? ≠ some ':')) :
    parseAddressedL (':' :: (s ++ ' ' :: (c ++ ' ' :: (r ++ ' ' ::
      (colPart ++ (t ++ ['\r', '\n'])))))) = some (s, c, r, t) := by
  have hstrip : stripColon (colPart ++ (t ++ ['\r', '\n'])) = t ++ ['\r', '\n'] := by
    rcases hcol with hcol | ⟨hcol, hh⟩
    · subst hcol; simp [stripColon]
    · subst hcol; simpa using stripColon_no_colon t hh
  simp only [parseAddressedL, if_true]
  rw [splitTok_token s _ hs hsw]
  simp only [Option.some_bind]
  rw [splitTok_token c _ hc hcw]
  simp only [Option.some_bind]
  rw [splitTok_token r _ hr hrw]
  simp only [Option.some_bind]
  rw [hstrip, textPart_append t ht]
  rfl

/-- The line `:<s> <c> <r> [:]<t>\r\n` (`b` = the optional colon present). -/
def mkInbound (s c r t : String) (b : Bool) : String :=
  ":" ++ s ++ " " ++ c ++ " " ++ r ++ " " ++ (if b then ":" else "") ++ t ++ "\r\n"

theorem mkInbound_data (s c r t : String) (b : Bool) :
    (mkInbound s c r t b).data = ':' :: (s.data ++ ' ' :: (c.data ++ ' ' ::
      (r.data ++ ' ' :: ((if b then [':'] else []) ++ (t.data ++ ['\r', '\n']))))) := by
  cases b <;> simp [mkInbound, String.data_append, List.append_assoc]

/-- A string is a valid `\S+` token: nonempty, no regex whitespace. -/
def validTok (s : String) : Prop := s.data ≠ [] ∧ ∀ x ∈ s.data, notWs x = true

theorem parseAddressedS_mkInbound (s c r t : String) (b : Bool)
    (hs : validTok s) (hc : validTok c) (hr : validTok r)
    (ht : '\n' ∉ t.data)
    (hcol : b = false → t.data.head? ≠ some ':') :
    parseAddressedS (mkInbound s c r t b) = some (s, c, r, t) := by
  unfold parseAddressedS
  rw [mkInbound_data]
  rw [parseAddressedL_build s.data c.data r.data t.data _ hs.1 hs.2 hc.1 hc.2
    hr.1 hr.2 ht (by cases b with
      | false => exact Or.inr ⟨rfl, hcol rfl⟩
      | true => exact Or.inl rfl)]
  simp [data_mk]

theorem ne_empty_of_data_ne_nil {s : String} (h : s.data ≠ []) : s ≠ "" :=
  fun he => h (by rw [he])

theorem joinSp_three (a b c : String) : joinSp [a, b, c] = a ++ " " ++ (b ++ " " ++ c) := rfl

theorem sendStr_full (c r t : String) (hr : r ≠ "") (ht : t ≠ "") :
    sendStr { command := c, receiver := r, text := t } = c ++ " " ++ r ++ " " ++ ":" ++ t := by
  have hparts : sendParts { command := c, receiver := r, text := t } = [c, r, ":" ++ t] := by
    simp [sendParts, if_neg hr, if_neg ht]
  rw [sendStr, hparts, joinSp_three]
  simp only [String.append_assoc]

/-! ### C2: parse / serialize round-trip -/

/-- C2 (counterexample): on the grammar-conforming addressed line
`:a b c :\r\n` (empty text), ReceiveMessage parses text `""`, but
SendMessage then drops the text field together with its separating space
and colon, so the reconstructed wire line `b c` prefixed with the sender is
`:a b c\r\n`, which differs from the original by more than the optional
leading colon and is not even an addressed line. -/
theorem c2_roundtrip_counterexample :
    parseAddressedS ":a b c :\r\n" = some ("a", "b", "c", "")
    ∧ sendWire { command := "b", receiver := "c", text := "" } = "b c\n"
    ∧ ":a " ++ sendStr { command := "b", receiver := "c", text := "" } ++ "\r\n" = ":a b c\r\n"
    ∧ ":a b c\r\n" ≠ ":a b c :\r\n"
    ∧ ":a b c\r\n" ≠ ":a b c \r\n"
    ∧ parseAddressedS ":a b c\r\n" = none := by
  refine ⟨by decide, by decide, by decide, by decide, by decide, by decide⟩

/-- C2 (amended): for every addressed line
`:<sender> <command> <receiver> [:]<text>\r\n` with nonempty text (tokens
nonempty and whitespace-free, text newline-free, and, when the optional
colon is absent, text not itself starting with a colon), ReceiveMessage
recovers exactly (sender, command, receiver, text), and SendMessage on an
outbound event with the same command, receiver and text rebuilds the wire
line `<command> <receiver> :<text>`, which prefixed with the original
sender and terminator equals the colon-normalized original — i.e. the
round trip is exact up to the optional leading colon before the text. -/
theorem c2_roundtrip (s c r t : String) (b : Bool)
    (hs : validTok s) (hc : validTok c) (hr : validTok r)
    (ht : '\n' ∉ t.data) (hne : t ≠ "")
    (hcol : b = false → t.data.head? ≠ some ':') :
    parseAddressedS (mkInbound s c r t b) = some (s, c, r, t)
    ∧ sendStr { command := c, receiver := r, text := t } = c ++ " " ++ r ++ " " ++ ":" ++ t
    ∧ ":" ++ s ++ " " ++ sendStr { command := c, receiver := r, text := t } ++ "\r\n"
        = mkInbound s c r t true := by
  have hrs : r ≠ "" := ne_empty_of_data_ne_nil hr.1
  have h2 := sendStr_full c r t hrs hne
  refine ⟨parseAddressedS_mkInbound s c r t b hs hc hr ht hcol, h2, ?_⟩
  rw [h2]
  simp only [mkInbound, reduceIte, String.append_assoc]

/-- C2 (witness). -/
theorem c2_roundtrip_witness :
    parseAddressedS (mkInbound "irc.test.foo" "NOTICE" "*" "*** No Ident response" true)
      = some ("irc.test.foo", "NOTICE", "*", "*** No Ident response")
    ∧ sendStr { command := "NOTICE", receiver := "*", text := "*** No Ident response" }
      = "NOTICE" ++ " " ++ "*" ++ " " ++ ":" ++ "*** No Ident response"
    ∧ ":" ++ "irc.test.foo" ++ " "
        ++ sendStr { command := "NOTICE", receiver := "*", text := "*** No Ident response" }
        ++ "\r\n"
      = mkInbound "irc.test.foo" "NOTICE" "*" "*** No Ident response" true :=
  c2_roundtrip "irc.test.foo" "NOTICE" "*" "*** No Ident response" true
    (by constructor <;> decide) (by constructor <;> decide) (by constructor <;> decide)
    (by decide) (by decide) (by decide)

/-! ### Shape lemmas: the three line patterns are pairwise disjoint -/

theorem parseAddressedL_shape {cs : List Char} {q} (h : parseAddressedL cs = some q) :
    cs.head? = some ':' := by
  cases cs with
  | nil => simp [parseAddressedL] at h
  | cons c0 rest =>
    by_cases hc : c0 = ':'
    · rw [hc]; rfl
    · simp [parseAddressedL, hc] at h

theorem parsePingL_shape {cs : List Char} {a} (h : parsePingL cs = some a) :
    cs.head? = some 'P' := by
  unfold parsePingL at h
  split at h
  · rfl
  · exact absurd h (by simp)

theorem parseErrL_shape {cs : List Char} {a} (h : parseErrL cs = some a) :
    cs.head? = some 'E' := by
  unfold parseErrL at h
  split at h
  · rfl
  · exact absurd h (by simp)

theorem parseAddressedS_of_ping {line : String} {a} (h : parsePingS line = some a) :
    parseAddressedS line = none := by
  unfold parseAddressedS
  cases hA : parseAddressedL line.data with
  | none => rfl
  | some q =>
    unfold parsePingS at h
    cases hP : parsePingL line.data with
    | none => rw [hP] at h; exact absurd h (by simp)
    | some x =>
      have h1 := parseAddressedL_shape hA
      have h2 := parsePingL_shape hP
      rw [h1] at h2
      exact absurd h2 (by simp)

theorem parseAddressedS_of_err {line : String} {a} (h : parseErrS line = some a) :
    parseAddressedS line = none := by
  unfold parseAddressedS
  cases hA : parseAddressedL line.data with
  | none => rfl
  | some q =>
    unfold parseErrS at h
    cases hP : parseErrL line.data with
    | none => rw [hP] at h; exact absurd h (by simp)
    | some x =>
      have h1 := parseAddressedL_shape hA
      have h2 := parseErrL_shape hP
      rw [h1] at h2
      exact absurd h2 (by simp)

theorem parsePingS_of_err {line : String} {a} (h : parseErrS line = some a) :
    parsePingS line = none := by
  unfold parsePingS
  cases hA : parsePingL line.data with
  | none => rfl
  | some q =>
    unfold parseErrS at h
    cases hP : parseErrL line.data with
    | none => rw [hP] at h; exact absurd h (by simp)
    | some x =>
      have h1 := parsePingL_shape hA
      have h2 := parseErrL_shape hP
      rw [h1] at h2
      exact absurd h2 (by simp)

theorem pingLine_data (X : String) :
    ("PING :" ++ X ++ "\r\n").data
      = 'P' :: 'I' :: 'N' :: 'G' :: ' ' :: ':' :: (X.data ++ ['\r', '\n']) := by
  simp [String.data_append, List.append_assoc]

theorem parsePingS_build (X : String) (hn : '\n' ∉ X.data) :
    parsePingS ("PING :" ++ X ++ "\r\n") = some X := by
  unfold parsePingS
  rw [pingLine_data]
  simp only [parsePingL]
  rw [textPart_append X.data hn]
  simp [data_mk]

theorem pong_wire (X : String) (hne : X ≠ "") :
    sendWire (pongMsg X) = "PONG :" ++ X ++ "\n" := by
  have hparts : sendParts (pongMsg X) = ["PONG", ":" ++ X] := by
    simp [sendParts, pongMsg, if_neg hne]
  rw [sendWire, sendStr, hparts]
  apply String.ext
  simp [String.data_append, List.append_assoc, joinSp]

/-! ### C3: keep-alive probe handling -/

/-- C3 (counterexample): on the input line `PING :\r\n` — the line `PING :X`
with empty token `X` — ReceiveMessage does yield the single PING event, but
the one transport write it performs is `PONG\n`, not `PONG :\n`: SendMessage
drops the colon-prefixed text part entirely when the text is empty, so the
claimed `PONG :X` write does not happen for `X = ""`. -/
theorem c3_ping_counterexample :
    (receiveMessageModel wOk "PING :\r\n").writes = ["PONG\n"]
    ∧ "PONG\n" ≠ "PONG :" ++ "" ++ "\n"
    ∧ (receiveMessageModel wOk "PING :\r\n").msg
        = some { command := "PING", text := "", raw := "PING :\r\n" } := by
  refine ⟨by decide, by decide, by decide⟩

/-- C3 (amended): for every input line `PING :X` with `X` nonempty (and
newline-free), ReceiveMessage performs exactly one transport write, namely
`PONG :X`, and yields exactly one consumer-visible event, carrying
`command = "PING"` and `X` as its text, with no error and no other event;
when `X` is empty the single write is `PONG` instead. -/
theorem c3_ping (w : String → Option String) (X : String)
    (hn : '\n' ∉ X.data) (hne : X ≠ "") :
    receiveMessageModel w ("PING :" ++ X ++ "\r\n") =
      { msg := some { command := "PING", text := X, raw := "PING :" ++ X ++ "\r\n" },
        err := (w ("PONG :" ++ X ++ "\n")).map RecvErr.send,
        writes := ["PONG :" ++ X ++ "\n"], setsLast := false } := by
  have hping := parsePingS_build X hn
  have haddr := parseAddressedS_of_ping hping
  have hw := pong_wire X hne
  simp only [receiveMessageModel, haddr, hping, hw]

/-- C3 (witness). -/
theorem c3_ping_witness :
    receiveMessageModel wOk ("PING :" ++ "irc.test.foo" ++ "\r\n") =
      { msg :=
          some { command := "PING", text := "irc.test.foo", raw := "PING :" ++ "irc.test.foo" ++ "\r\n" },
        err := (wOk ("PONG :" ++ "irc.test.foo" ++ "\n")).map RecvErr.send,
        writes := ["PONG :" ++ "irc.test.foo" ++ "\n"], setsLast := false } :=
  c3_ping wOk "irc.test.foo" (by decide) (by decide)

/-! ### C7: malformed lines are recoverable -/

/-- C7: a line matching none of the three recognized shapes makes
ReceiveMessage return no event and a malformed-line error carrying the
offending raw text, with no transport write and no liveness update; and the
read loop is not aborted — the receive loop processes a stream containing
such a line by forwarding a nil event for it and still parsing every
earlier and later line. -/
theorem c7_malformed (w : String → Option String) (line : String)
    (hA : parseAddressedS line = none) (hP : parsePingS line = none)
    (hE : parseErrS line = none) :
    receiveMessageModel w line =
      { msg := none, err := some (RecvErr.malformed line), writes := [], setsLast := false }
    ∧ ∀ pre post : List String,
        receiveLoopModel w (pre ++ line :: post)
          = receiveLoopModel w pre ++ none :: receiveLoopModel w post := by
  have h1 : receiveMessageModel w line =
      { msg := none, err := some (RecvErr.malformed line), writes := [], setsLast := false } := by
    simp only [receiveMessageModel, hA, hP, hE]
  refine ⟨h1, fun pre post => ?_⟩
  simp [receiveLoopModel, List.map_append, h1]

/-- C7 (witness). -/
theorem c7_malformed_witness :
    receiveMessageModel wOk "garbage\r\n" =
      { msg := none, err := some (RecvErr.malformed "garbage\r\n"),
        writes := [], setsLast := false }
    ∧ receiveLoopModel wOk ([":a b c :d\r\n"] ++ "garbage\r\n" :: ["PING :x\r\n"])
        = receiveLoopModel wOk [":a b c :d\r\n"] ++ none :: receiveLoopModel wOk ["PING :x\r\n"] :=
  ⟨(c7_malformed wOk "garbage\r\n" (by decide) (by decide) (by decide)).1,
   (c7_malformed wOk "garbage\r\n" (by decide) (by decide) (by decide)).2 [":a b c :d\r\n"]
     ["PING :x\r\n"]⟩

/-! ### C9: the liveness marker moves only on addressed lines -/

/-- C9: ReceiveMessage updates `lastMsgTime` exactly when the consumed line
parses as an addressed line; keep-alive (PING) lines, fatal (ERROR) lines
and malformed lines leave it unchanged, and consequently Start's liveness
wait is satisfied iff some line consumed during the dial-timeout window
was an addressed line. -/
theorem c9_liveness_marker :
    (∀ w line, (receiveMessageModel w line).setsLast = (parseAddressedS line).isSome)
    ∧ (∀ w line a, parsePingS line = some a → (receiveMessageModel w line).setsLast = false)
    ∧ (∀ w line a, parseErrS line = some a → (receiveMessageModel w line).setsLast = false)
    ∧ (∀ w line, parseAddressedS line = none → parsePingS line = none → parseErrS line = none →
        (receiveMessageModel w line).setsLast = false)
    ∧ (∀ w lines, livenessSatisfied lines = true
        ↔ ∃ l ∈ lines, (receiveMessageModel w l).setsLast = true) := by
  have key : ∀ w line, (receiveMessageModel w line).setsLast = (parseAddressedS line).isSome := by
    intro w line
    cases hA : parseAddressedS line with
    | some q =>
      obtain ⟨s, c, r, t⟩ := q
      simp only [receiveMessageModel, hA, Option.isSome]
    | none =>
      cases hP : parsePingS line with
      | some a => simp only [receiveMessageModel, hA, hP, Option.isSome]
      | none =>
        cases hE : parseErrS line with
        | some m => simp only [receiveMessageModel, hA, hP, hE, Option.isSome]
        | none => simp only [receiveMessageModel, hA, hP, hE, Option.isSome]
  refine ⟨key, ?_, ?_, ?_, ?_⟩
  · intro w line a h
    rw [key, parseAddressedS_of_ping h]
    rfl
  · intro w line a h
    rw [key, parseAddressedS_of_err h]
    rfl
  · intro w line hA _ _
    rw [key, hA]
    rfl
  · intro w lines
    simp only [livenessSatisfied, List.any_eq_true, key]

/-- C9 (witness). -/
theorem c9_liveness_marker_witness :
    (receiveMessageModel wOk "PING :x\r\n").setsLast = false
    ∧ (receiveMessageModel wOk "ERROR :bye\r\n").setsLast = false
    ∧ (receiveMessageModel wOk "garbage\r\n").setsLast = false
    ∧ (receiveMessageModel wOk ":a b c :d\r\n").setsLast = true
    ∧ livenessSatisfied ["PING :x\r\n", ":a b c :d\r\n"] = true :=
  ⟨c9_liveness_marker.2.1 wOk "PING :x\r\n" "x" (by decide),
   c9_liveness_marker.2.2.1 wOk "ERROR :bye\r\n" "bye" (by decide),
   c9_liveness_marker.2.2.2.1 wOk "garbage\r\n" (by decide) (by decide) (by decide),
   (c9_liveness_marker.1 wOk ":a b c :d\r\n").trans (by decide),
   (c9_liveness_marker.2.2.2.2 wOk ["PING :x\r\n", ":a b c :d\r\n"]).mpr
     ⟨":a b c :d\r\n", by simp, (c9_liveness_marker.1 wOk ":a b c :d\r\n").trans (by decide)⟩⟩

theorem realname_ne (nick : String) : realname nick ≠ "" := by
  unfold realname
  split
  · decide
  · intro h
    have := congrArg String.data h
    simp [String.data_append] at this

theorem nick_wire (nick : String) : sendWire (nickMsg nick) = "NICK " ++ nick ++ "\n" := by
  apply String.ext
  simp [sendWire, sendStr, sendParts, nickMsg, joinSp, String.data_append, List.append_assoc]

theorem user_wire (nick : String) :
    sendWire (userMsg nick) = "USER " ++ nick ++ " 0 * :" ++ realname nick ++ "\n" := by
  have hrn := realname_ne nick
  apply String.ext
  simp [sendWire, sendStr, sendParts, userMsg, if_neg hrn, joinSp, String.data_append,
    List.append_assoc]

/-! ### C4: silent peer means ErrTimeout and no identity lines -/

/-- C4: when the peer sends nothing inside the dial-timeout window, Start
fails with the distinguished liveness-timeout error (`chatlib.ErrTimeout`,
distinguishable from a connection-setup failure), and no line at all — in
particular neither the nickname-declaration nor the user-registration
line — is ever written to the transport. -/
theorem c4_start_timeout (nick : String) (w : String → Option String) :
    startTrace true [] nick w = ([], some StartErr.timeout)
    ∧ StartErr.timeout ≠ StartErr.connectFail
    ∧ ∀ s, Ev.write s ∉ (startTrace true [] nick w).1 := by
  have h : startTrace true [] nick w = ([], some StartErr.timeout) := rfl
  refine ⟨h, by decide, ?_⟩
  intro s hs
  rw [h] at hs
  simp at hs

/-- C4 (witness). -/
theorem c4_start_timeout_witness :
    startTrace true [] "freyabot" wOk = ([], some StartErr.timeout)
    ∧ StartErr.timeout ≠ StartErr.connectFail
    ∧ Ev.write "NICK freyabot\n" ∉ (startTrace true [] "freyabot" wOk).1 :=
  ⟨(c4_start_timeout "freyabot" wOk).1, (c4_start_timeout "freyabot" wOk).2.1,
   (c4_start_timeout "freyabot" wOk).2.2 "NICK freyabot\n"⟩

/-! ### C5: login sequence after liveness -/

/-- C5 (counterexample): a peer that does send bytes — here the single line
`PING :x\r\n` — but never an addressed line does not satisfy Start's
liveness wait (only addressed lines move `lastMsgTime`): Start returns the
timeout error and writes neither a nickname line nor a user-registration
line, contradicting the claim for a peer that merely "sends at least one
byte". -/
theorem c5_login_counterexample :
    "PING :x\r\n" ≠ ""
    ∧ livenessSatisfied ["PING :x\r\n"] = false
    ∧ startTrace true ["PING :x\r\n"] "freyabot" wOk = ([], some StartErr.timeout) := by
  refine ⟨by decide, by decide, by decide⟩

/-- C5 (amended): once the liveness wait is satisfied — i.e. the peer sent
at least one addressed line within the dial-timeout window — and the two
login writes succeed, Start's supervisor performs exactly: the settle
(login-delay) sleep, then one nickname line `NICK <nick>`, then one
user-registration line `USER <nick> 0 * :<realname>`, in that order, with
no channel-join (or other) line; the realname is `FreyaBot`, extended with
a parenthesized suffix containing the configured nick exactly when that
nick differs from the default `freyabot`. -/
theorem c5_login_sequence (nick : String) (lines : List String) (w : String → Option String)
    (hl : livenessSatisfied lines = true)
    (h1 : w (sendWire (nickMsg nick)) = none)
    (h2 : w (sendWire (userMsg nick)) = none) :
    startTrace true lines nick w =
      ([Ev.sleepLogin, Ev.write ("NICK " ++ nick ++ "\n"),
        Ev.write ("USER " ++ nick ++ " 0 * :" ++ realname nick ++ "\n")], none)
    ∧ realname nick
        = (if nick = defaultNick then "FreyaBot" else "FreyaBot" ++ " (" ++ nick ++ ")")
    ∧ ∀ s, Ev.write s ∈ (startTrace true lines nick w).1 → s.data.head? ≠ some 'J' := by
  have hlr : loginModel nick w = ([sendWire (nickMsg nick), sendWire (userMsg nick)], none) := by
    simp only [loginModel, h1, h2]
  have htr : startTrace true lines nick w =
      ([Ev.sleepLogin, Ev.write ("NICK " ++ nick ++ "\n"),
        Ev.write ("USER " ++ nick ++ " 0 * :" ++ realname nick ++ "\n")], none) := by
    simp only [startTrace, hl, Bool.not_true, Bool.not_false, reduceIte, hlr]
    simp [nick_wire, user_wire]
  refine ⟨htr, rfl, ?_⟩
  intro s hs
  rw [htr] at hs
  simp only [List.mem_cons, List.not_mem_nil, or_false] at hs
  rcases hs with h | h | h
  · exact absurd h (by simp)
  · have hse : s = "NICK " ++ nick ++ "\n" := by injection h
    rw [hse]
    simp [String.data_append]
  · have hse : s = "USER " ++ nick ++ " 0 * :" ++ realname nick ++ "\n" := by injection h
    rw [hse]
    simp [String.data_append]

/-- C5 (witness). -/
theorem c5_login_sequence_witness :
    startTrace true [":a b c :d\r\n"] "mybot" wOk =
      ([Ev.sleepLogin, Ev.write ("NICK " ++ "mybot" ++ "\n"),
        Ev.write ("USER " ++ "mybot" ++ " 0 * :" ++ realname "mybot" ++ "\n")], none)
    ∧ realname "mybot"
        = (if "mybot" = defaultNick then "FreyaBot" else "FreyaBot" ++ " (" ++ "mybot" ++ ")")
    ∧ ∀ s, Ev.write s ∈ (startTrace true [":a b c :d\r\n"] "mybot" wOk).1
        → s.data.head? ≠ some 'J' :=
  c5_login_sequence "mybot" [":a b c :d\r\n"] wOk (by decide) rfl rfl

/-! ### C6: login failures are swallowed by Start -/

/-- A transport whose write fails exactly on the nickname line. -/
def wNickFails : String → Option String :=
  fun s => if s = "NICK freyabot\n" then some "broken pipe" else none

/-- C6: the claim states the corrected contract — Start should propagate
login's actual error. The code does not: with a live peer and a transport
that rejects the NICK write, login returns the error `broken pipe`, yet
Start's guard `if e := a.login(c); err != nil` (irc/irc.go line 995) tests
the still-nil outer `err` variable instead of `e`, so Start returns nil
(success). This theorem evaluates the embedded code at that failing input,
exhibiting the divergence. -/
theorem c6_login_error_swallowed :
    (loginModel "freyabot" wNickFails).2 = some "broken pipe"
    ∧ (loginModel "freyabot" wNickFails).1 = ["NICK freyabot\n"]
    ∧ startTrace true [":a b c :d\r\n"] "freyabot" wNickFails
        = ([Ev.sleepLogin, Ev.write "NICK freyabot\n"], none) := by
  refine ⟨by decide, by decide, by decide⟩

/-! ### C1: bounded FIFO queue, no drops, arrival order -/

theorem frStep_progress (cap : Nat) (hcap : 1 ≤ cap) (s : FramerState)
    (h : s.pending ≠ [] ∨ s.queue ≠ []) : ∃ t, FrStep cap s t := by
  obtain ⟨p, q, o⟩ := s
  cases q with
  | cons l rest => exact ⟨_, FrStep.recv p l rest o⟩
  | nil =>
    cases p with
    | nil => simp at h
    | cons l rest => exact ⟨_, FrStep.read l rest [] o (by simpa using hcap)⟩

theorem frReach_inv (lines : List String) (cap : Nat) (s : FramerState)
    (h : FrReach lines cap s) : s.out ++ s.queue ++ s.pending = lines := by
  induction h with
  | init => simp
  | step _ hs ih =>
    cases hs with
    | read l rest q o hlt => simpa [List.append_assoc] using ih
    | recv p l rest o => simpa [List.append_assoc] using ih

/-- C1: in every reachable interleaving of the framer (pollConn enqueuing
lines read from the transport onto the bounded `rawMsgs` queue, blocking —
never dropping — while it is at capacity) and the consumer (ReceiveMessage
dequeuing), the consumed lines, the queued lines and the unread lines
concatenate to the original arrival sequence (strict FIFO, no drop, no
reorder, no duplication); when everything has been drained the consumer
has seen exactly the N arrival lines in order — for any N, beyond the
queue capacity included — and ReceiveMessage's events are the parses of
those lines in that order; and from any undrained state a step is still
possible (the full queue blocks only the producer, never the system). -/
theorem c1_fifo_order (lines : List String) (cap : Nat) (s : FramerState)
    (h : FrReach lines cap s) :
    s.out ++ s.queue ++ s.pending = lines
    ∧ (s.pending = [] → s.queue = [] →
        s.out = lines
        ∧ ∀ w, s.out.map (receiveMessageModel w) = lines.map (receiveMessageModel w))
    ∧ ((s.pending ≠ [] ∨ s.queue ≠ []) → 1 ≤ cap → ∃ t, FrStep cap s t) := by
  have hinv := frReach_inv lines cap s h
  refine ⟨hinv, ?_, fun hne hcap => frStep_progress cap hcap s hne⟩
  intro hp hq
  have hout : s.out = lines := by simpa [hp, hq] using hinv
  exact ⟨hout, fun w => by rw [hout]⟩

/-- C1 (witness): three lines pushed through a queue of capacity 1. -/
theorem c1_fifo_order_witness :
    ∃ s : FramerState,
      FrReach [":a b c :d\r\n", "PING :x\r\n", "garbage\r\n"] 1 s
      ∧ s.out ++ s.queue ++ s.pending = [":a b c :d\r\n", "PING :x\r\n", "garbage\r\n"] := by
  have h0 : FrReach [":a b c :d\r\n", "PING :x\r\n", "garbage\r\n"] 1
      ⟨[":a b c :d\r\n", "PING :x\r\n", "garbage\r\n"], [], []⟩ := FrReach.init
  have h1 := FrReach.step h0
    (FrStep.read ":a b c :d\r\n" ["PING :x\r\n", "garbage\r\n"] [] [] (by decide))
  have h2 := FrReach.step h1
    (FrStep.recv ["PING :x\r\n", "garbage\r\n"] ":a b c :d\r\n" [] [])
  have h3 := FrReach.step h2
    (FrStep.read "PING :x\r\n" ["garbage\r\n"] [] [":a b c :d\r\n"] (by decide))
  have h4 := FrReach.step h3
    (FrStep.recv ["garbage\r\n"] "PING :x\r\n" [] [":a b c :d\r\n"])
  have h5 := FrReach.step h4
    (FrStep.read "garbage\r\n" [] [] [":a b c :d\r\n", "PING :x\r\n"] (by decide))
  have h6 := FrReach.step h5
    (FrStep.recv [] "garbage\r\n" [] [":a b c :d\r\n", "PING :x\r\n"])
  exact ⟨_, h6, (c1_fifo_order _ 1 _ h6).1⟩

/-! ### C8: dispatch fires all matching actions in registration order -/

theorem dispatchFrom_eq (m : Msg) (n : Nat) (actions : List BAction) :
    dispatchFrom n actions m
      = ((actions.enumFrom n).filter fun p =>
          p.2.command == m.command && p.2.matchText m.text).map fun p => (p.1, p.2.fn m) := by
  induction actions generalizing n with
  | nil => simp [dispatchFrom]
  | cons a rest ih =>
    by_cases hc : (a.command == m.command && a.matchText m.text) = true
    · simp [dispatchFrom, List.enumFrom, List.filter_cons, hc, ih]
    · simp [dispatchFrom, List.enumFrom, List.filter_cons, hc, ih]

theorem dispatchFrom_index_ge (m : Msg) (actions : List BAction) :
    ∀ (n i : Nat) (r : Option String), (i, r) ∈ dispatchFrom n actions m → n ≤ i := by
  induction actions with
  | nil => intro n i r h; simp [dispatchFrom] at h
  | cons a rest ih =>
    intro n i r h
    by_cases hc : (a.command == m.command && a.matchText m.text) = true
    · simp only [dispatchFrom, hc, if_true, List.mem_cons] at h
      rcases h with h | h
      · have : i = n := congrArg Prod.fst h
        omega
      · have := ih (n + 1) i r h
        omega
    · simp only [dispatchFrom, hc, if_false, Bool.false_eq_true] at h
      have := ih (n + 1) i r h
      omega

theorem dispatchFrom_mem (m : Msg) (actions : List BAction) :
    ∀ (n i : Nat) (a : BAction), actions.get? i = some a →
      ((∃ r, (n + i, r) ∈ dispatchFrom n actions m)
        ↔ (a.command == m.command && a.matchText m.text) = true) := by
  induction actions with
  | nil => intro n i a ha; simp at ha
  | cons x rest ih =>
    intro n i a ha
    cases i with
    | zero =>
      have hax : x = a := by simpa using ha
      subst hax
      constructor
      · rintro ⟨r, hr⟩
        by_cases hc : (x.command == m.command && x.matchText m.text) = true
        · exact hc
        · simp only [dispatchFrom, hc, if_false, Bool.false_eq_true] at hr
          have := dispatchFrom_index_ge m rest (n + 1) (n + 0) r hr
          omega
      · intro hc
        exact ⟨x.fn m, by simp [dispatchFrom, hc]⟩
    | succ j =>
      have ha' : rest.get? j = some a := by simpa using ha
      have key := ih (n + 1) j a ha'
      have harith : n + (j + 1) = (n + 1) + j := by omega
      rw [harith]
      by_cases hc : (x.command == m.command && x.matchText m.text) = true
      · simp only [dispatchFrom, hc, if_true]
        constructor
        · rintro ⟨r, hr⟩
          rcases List.mem_cons.mp hr with h | h
          · have : (n + 1) + j = n := congrArg Prod.fst h
            omega
          · exact key.mp ⟨r, h⟩
        · intro hca
          obtain ⟨r, hr⟩ := key.mpr hca
          exact ⟨r, List.mem_cons_of_mem _ hr⟩
      · simp only [dispatchFrom, hc, if_false, Bool.false_eq_true]
        exact key

/-- C8: actionLoop invokes, for a dispatched (non-nil) event, exactly the
registered actions whose command filter equals the event's command and
whose pattern matches the event's text: the invocation trace equals the
filtered registration list in registration order (indices are registration
positions), an action with registration index i fires iff its filter and
pattern match — independently of the error results of earlier handlers,
which are logged without stopping the scan — and a nil event fires
nothing. -/
theorem c8_dispatch (actions : List BAction) (m : Msg) :
    dispatchMsg actions (some m)
      = ((actions.enum.filter fun p =>
          p.2.command == m.command && p.2.matchText m.text).map fun p => (p.1, p.2.fn m))
    ∧ (∀ i a, actions.get? i = some a →
        ((∃ r, (i, r) ∈ dispatchMsg actions (some m))
          ↔ (a.command == m.command && a.matchText m.text) = true))
    ∧ dispatchMsg actions none = [] := by
  refine ⟨?_, ?_, rfl⟩
  · simpa [dispatchMsg, List.enum] using dispatchFrom_eq m 0 actions
  · intro i a ha
    have := dispatchFrom_mem m actions 0 i a ha
    simpa [dispatchMsg] using this

/-- C8 (witness): three registrations — two matching `PRIVMSG !join …`, one
with a different command filter; the second matching handler still fires
after the first one errors. -/
theorem c8_dispatch_witness :
    dispatchMsg
      [⟨"PRIVMSG", matchJoin, fun _ => some "boom"⟩,
       ⟨"003", fun _ => true, fun _ => none⟩,
       ⟨"PRIVMSG", matchJoin, fun _ => some "later"⟩]
      (some { command := "PRIVMSG", text := "!join #test" })
      = [(0, some "boom"), (2, some "later")] := by
  rw [(c8_dispatch
    [⟨"PRIVMSG", matchJoin, fun _ => some "boom"⟩,
     ⟨"003", fun _ => true, fun _ => none⟩,
     ⟨"PRIVMSG", matchJoin, fun _ => some "later"⟩]
    { command := "PRIVMSG", text := "!join #test" }).1]
  rfl

/-! ### C10: built-in handler submatch indexing is in bounds -/

theorem joinGroups_length (cs : List Char) (parts : List String)
    (h : joinGroups cs = some parts) : parts.length = 2 := by
  induction cs with
  | nil => simp [joinGroups] at h
  | cons c rest ih =>
    simp only [joinGroups] at h
    split at h
    · cases h
      rfl
    · exact ih h

theorem leaveAt_length (cs : List Char) (parts : List String)
    (h : leaveAt cs = some parts) : parts.length = 4 := by
  unfold leaveAt at h
  split at h
  · exact absurd h (by simp)
  · split at h
    · cases h
      rfl
    · cases h
      rfl

theorem leaveGroups_length (cs : List Char) (parts : List String)
    (h : leaveGroups cs = some parts) : parts.length = 4 := by
  induction cs with
  | nil => simp [leaveGroups] at h
  | cons c rest ih =>
    simp only [leaveGroups] at h
    split at h
    · next g hg =>
      cases h
      exact leaveAt_length _ _ hg
    · exact ih h

/-- C10: under the dispatcher precondition that a handler runs only when
its action's pattern matched the event text, the submatch indexing in the
built-in handlers never panics: whenever `!join (.*)` matches, group 1
exists and actionJoinChannel produces its JOIN line, and whenever
`!(part|leave)( (.*))?` matches, group 3 exists (empty when unmatched) and
actionLeaveChannel produces its PART line. -/
theorem c10_handlers_safe :
    (∀ text, matchJoin text = true → (actionJoinChannelM text).isSome = true)
    ∧ (∀ receiver text, matchLeave text = true
        → (actionLeaveChannelM receiver text).isSome = true) := by
  constructor
  · intro text h
    unfold matchJoin at h
    cases hg : joinGroups text.data with
    | none => rw [hg] at h; simp at h
    | some parts =>
      have hlen := joinGroups_length _ _ hg
      obtain ⟨g0, g1, rfl⟩ := List.length_eq_two.mp hlen
      simp [actionJoinChannelM, hg]
  · intro receiver text h
    unfold matchLeave at h
    cases hg : leaveGroups text.data with
    | none => rw [hg] at h; simp at h
    | some parts =>
      have hlen := leaveGroups_length _ _ hg
      obtain ⟨g0, rest, rfl⟩ : ∃ g0 rest, parts = g0 :: rest := by
        cases parts with
        | nil => simp at hlen
        | cons g0 rest => exact ⟨g0, rest, rfl⟩
      have hlen3 : rest.length = 3 := by simpa using hlen
      obtain ⟨g1, g2, g3, rfl⟩ := List.length_eq_three.mp hlen3
      simp [actionLeaveChannelM, hg]

/-- C10 (witness). -/
theorem c10_handlers_safe_witness :
    (actionJoinChannelM "!join #test").isSome = true
    ∧ (actionLeaveChannelM "#chan" "!part").isSome = true :=
  ⟨c10_handlers_safe.1 "!join #test" (by decide),
   c10_handlers_safe.2 "#chan" "!part" (by decide)⟩

end Chatlib
